import Mathlib

/-!
Verification of the dataset glue code in `datasets.py` (PhysioNet Challenge
2018 sleep dataset helpers).  The Python module is shallowly embedded here:

* `update_pc18_sleep_records` — the CSV table builder (pandas pipeline),
  embedded as a pure function on lists of rows;
* `data_path` — the local data directory resolver (`_data_path` in the
  source; `os.listdir` is passed in as the list of subdirectory names);
* `fetch_pc18_data` — the per-subject file fetcher; the external
  checksum-verified downloader `_fetch_one` is an abstract parameter, and
  the function additionally returns the list of `(fname, sha)` pairs it
  passed to that downloader, in call order;
* `convert_wfdb_anns_to_mne` — the annotation converter
  (`convert_wfdb_anns_to_mne_annotations` in the source); the Python
  `assert` is modelled by returning `none` on failure;
* `PC18.build` / `PC18.load_raw` — the dataset class constructor and its
  record loader; the external readers (wfdb, mne, braindecode) are
  abstract parameters, and an event trace records the order of the
  processing steps.

Machine reals (numpy float64 onsets) are modelled by `ℚ`; all quantities
involved are exact decimals, and the claims under study are about exact
arithmetic structure (differences of onsets, the constant 30), not about
rounding.
-/

/-! ## Definitions -/

/-- A `wfdb.io.Annotation` object, restricted to the fields the converter
reads: the sample indices, the channel of each annotation, the description
strings (`aux_note`) and the sampling frequency `fs`. -/
structure WfdbAnn where
  sample : List Nat
  chan : List Nat
  aux_note : List String
  fs : ℚ
deriving DecidableEq

/-- An `mne.Annotations` object: the three parallel lists the converter
builds (`new_onset`, `new_duration`, `new_description`). -/
structure MneAnns where
  onset : List ℚ
  duration : List ℚ
  description : List String
deriving DecidableEq

/-- `onsets = annots.sample / annots.fs` (elementwise). -/
def WfdbAnn.onsets (a : WfdbAnn) : List ℚ :=
  a.sample.map (fun (s : Nat) => (s : ℚ) / a.fs)

/-- `ann_chs = set(annots.chan)`: the distinct channels.  CPython iterates a
set of small ints in an unspecified order; we model it as first-occurrence
order (`dedup`).  The claims under study are per-channel, so none of them
depends on this order. -/
def WfdbAnn.annChs (a : WfdbAnn) : List Nat :=
  a.chan.dedup

/-- The sample indices on channel `ch` (the boolean mask
`annots.chan == ch` applied to `annots.sample`), in order. -/
def WfdbAnn.chSamples (a : WfdbAnn) (ch : Nat) : List Nat :=
  (a.chan.zip a.sample).filterMap (fun p => if p.1 = ch then some p.2 else none)

/-- `ch_onsets = onsets[mask]`: the onsets on channel `ch`, in order. -/
def WfdbAnn.chOnsets (a : WfdbAnn) (ch : Nat) : List ℚ :=
  (a.chan.zip a.onsets).filterMap (fun p => if p.1 = ch then some p.2 else none)

/-- `ch_descs = np.array(annots.aux_note)[mask]`: the description strings on
channel `ch`, in order. -/
def WfdbAnn.chDescs (a : WfdbAnn) (ch : Nat) : List String :=
  (a.chan.zip a.aux_note).filterMap (fun p => if p.1 = ch then some p.2 else none)

/-- `np.diff`: consecutive differences. -/
def diffList : List ℚ → List ℚ
  | [] => []
  | [_] => []
  | x :: y :: rest => (y - x) :: diffList (y :: rest)

/-- The test `i.startswith('(') or i.endswith(')')` on one description. -/
def isIntervalMarker (s : String) : Bool :=
  s.startsWith "(" || s.endsWith ")"

/-- `all([(i.startswith('(') or i.endswith(')')) for i in ch_descs])`. -/
def allIntervalMarkers (l : List String) : Bool :=
  l.all isIntervalMarker

/-- The loop body of the converter, iterated over the channel list `chs`
with accumulator `acc` (the three `new_*` lists built so far).  A channel
whose descriptions are all interval markers is skipped; otherwise the
channel durations `np.concatenate([np.diff(ch_onsets), [30]])` are computed,
the `assert all(ch_durations > 0)` is modelled by returning `none` when it
fails, and the onsets, durations and descriptions are appended. -/
def convertLoop (a : WfdbAnn) : List Nat → MneAnns → Option MneAnns
  | [], acc => some acc
  | ch :: rest, acc =>
    let ds := a.chDescs ch
    if allIntervalMarkers ds then
      convertLoop a rest acc
    else
      let os := a.chOnsets ch
      let durs := diffList os ++ [30]
      if durs.all (fun d => decide (0 < d)) then
        convertLoop a rest
          ⟨acc.onset ++ os, acc.duration ++ durs, acc.description ++ ds⟩
      else
        none

/-- `convert_wfdb_anns_to_mne_annotations`: convert a wfdb annotation object
into MNE's three parallel lists.  Returns `none` exactly when the Python
function raises its `'Negative duration'` assertion. -/
def convert_wfdb_anns_to_mne (a : WfdbAnn) : Option MneAnns :=
  convertLoop a a.annChs ⟨[], [], []⟩

/-- The onsets a single channel contributes to the output (empty for a
skipped interval-marker channel). -/
def emittedOnsets (a : WfdbAnn) (ch : Nat) : List ℚ :=
  if allIntervalMarkers (a.chDescs ch) then [] else a.chOnsets ch

/-- The durations a single channel contributes to the output. -/
def emittedDurs (a : WfdbAnn) (ch : Nat) : List ℚ :=
  if allIntervalMarkers (a.chDescs ch) then [] else diffList (a.chOnsets ch) ++ [30]

/-- The descriptions a single channel contributes to the output. -/
def emittedDescs (a : WfdbAnn) (ch : Nat) : List String :=
  if allIntervalMarkers (a.chDescs ch) then [] else a.chDescs ch

/-- The per-channel output structure asserted by claim C1, as a predicate on
an input annotation object `a` and the converter's output `m`: the output is
the per-channel contributions in channel order, and on every channel whose
descriptions are not all interval markers the contributed onsets are exactly
`sample / fs` (one per sample on that channel, in order), there is one
duration per onset, each non-final duration is the next onset minus the
current one, and the final duration is `30`. -/
def C1Prop (a : WfdbAnn) (m : MneAnns) : Prop :=
  m.onset = a.annChs.flatMap (emittedOnsets a) ∧
  m.duration = a.annChs.flatMap (emittedDurs a) ∧
  m.description = a.annChs.flatMap (emittedDescs a) ∧
  ∀ ch ∈ a.annChs, allIntervalMarkers (a.chDescs ch) = false →
    emittedOnsets a ch = (a.chSamples ch).map (fun (s : Nat) => (s : ℚ) / a.fs) ∧
    (emittedDurs a ch).length = (emittedOnsets a ch).length ∧
    (∀ i, i + 1 < (emittedOnsets a ch).length →
      (emittedDurs a ch).getD i 0 =
        (emittedOnsets a ch).getD (i + 1) 0 - (emittedOnsets a ch).getD i 0) ∧
    (emittedDurs a ch).getLast? = some 30

/-- A concrete annotation object: channel 0 carries sleep-stage style
descriptions, channel 1 carries interval-marker descriptions. -/
def annEx : WfdbAnn :=
  ⟨[0, 6, 12, 4, 10], [0, 0, 0, 1, 1], ["W", "N1", "N2", "(apnea", "apnea)"], 2⟩

/-- The converter's output on `annEx`. -/
def mneEx : MneAnns := ⟨[0, 3, 6], [3, 3, 30], ["W", "N1", "N2"]⟩

/-- `op.join` on the POSIX paths this module handles. -/
def joinPath (a b : String) : String := a ++ "/" ++ b

/-- `_data_path`, after the external `_get_path` has resolved the base
directory: `path` is the resolved directory and `subdirs` is
`os.listdir(path)`. -/
def data_path (path : String) (subdirs : List String) : String :=
  if "training" ∈ subdirs ∨ "test" ∈ subdirs then path
  else joinPath path "pc18-sleep-data"

/-- One row of a `SHA1SUMS` listing, as parsed by
`pd.read_csv(..., names=['sha', 'fname'])`. -/
structure ShaEntry where
  sha : String
  fname : String
deriving DecidableEq

/-- One row of the demographics table `age-sex.csv`. -/
structure InfoEntry where
  record : String
  age : Int
  sex : String
deriving DecidableEq

/-- One row of the output `sleep_records.csv` table: the columns selected at
the end of `update_pc18_sleep_records`.  `recordType` and `sex` are `Option`
because the pandas `.map` calls send unrecognised values to missing. -/
structure SleepRecord where
  subject : Nat
  record : String
  recordType : Option String
  split : String
  age : Int
  sex : Option String
  sha : String
  fname : String
deriving DecidableEq

/-- The `Sex` normalisation `{'F': 'female', 'M': 'male', 'm': 'male'}`. -/
def sexMap (s : String) : Option String :=
  if s = "F" then some "female"
  else if s = "M" then some "male"
  else if s = "m" then some "male"
  else none

/-- `fname.str.split('/', expand=True)[0]`: the leading path component. -/
def recordOf (fname : String) : String :=
  (fname.splitOn "/").headD fname

/-- `fname.str.split('.', expand=True)[1]`, mapped through
`{'hea': 'Header', 'mat': 'PSG', 'arousal': 'Arousal'}`. -/
def recordTypeOf (fname : String) : Option String :=
  (fname.splitOn ".")[1]?.bind (fun e =>
    if e = "hea" then some "Header"
    else if e = "mat" then some "PSG"
    else if e = "arousal" then some "Arousal"
    else none)

/-- The row filter `select_records`: the file name starts with `tr` or `te`
and does not end with `arousal.mat`. -/
def selectRecord (fname : String) : Bool :=
  (fname.startsWith "tr" || fname.startsWith "te") && !(fname.endsWith "arousal.mat")

/-- The output row `update_pc18_sleep_records` builds when the checksum row
`e` (from split `split1`) is merged with the demographics row `i` sitting at
positional index `subj` (which `reset_index` turns into the `Subject`
column).  The `Record` column is computed from the original file name, and
the `fname` column is the `Split`-prefixed one. -/
def joinedRow (split1 : String) (e : ShaEntry) (subj : Nat) (i : InfoEntry) : SleepRecord :=
  { subject := subj
    record := recordOf e.fname
    recordType := recordTypeOf (split1 ++ "/" ++ e.fname)
    split := split1
    age := i.age
    sex := sexMap i.sex
    sha := e.sha
    fname := split1 ++ "/" ++ e.fname }

/-- `update_pc18_sleep_records`: concatenate the `training` and `test`
checksum listings, filter with `select_records`, inner-join with the
demographics table on the `Record` column (pandas `merge` with
`sort=False` keeps left-key order and pairs each left row with the matching
right rows in their order), and sort by `Subject`.  Writing the CSV is I/O;
the function returns the rows written, in file order.  pandas
`sort_values` uses an unstable quicksort; since only the multiset of rows
and sortedness are observable in the output semantics modelled here, the
sort is modelled by `mergeSort`. -/
def update_pc18_sleep_records (train test : List ShaEntry) (info : List InfoEntry) :
    List SleepRecord :=
  let sha_df := train.map (fun e => ("training", e)) ++ test.map (fun e => ("test", e))
  let selected := sha_df.filter (fun p => selectRecord p.2.fname)
  let data := info.enum
  let merged := selected.flatMap (fun p =>
    (data.filter (fun q => q.2.record = recordOf p.2.fname)).map (fun q =>
      joinedRow p.1 p.2 q.1 q.2))
  merged.mergeSort (fun r1 r2 => decide (r1.subject ≤ r2.subject))

/-- The property asserted by claim C3, as a predicate on the three input
tables: the output is sorted by `Subject`, and its rows are exactly the
rows obtained by concatenating the split-tagged training and test listings,
keeping the rows whose file name starts with `tr` or `te` and does not end
with `arousal.mat`, and joining with the demographics table on the `Record`
column. -/
def C3Prop (train test : List ShaEntry) (info : List InfoEntry) : Prop :=
  (update_pc18_sleep_records train test info).Pairwise
    (fun r1 r2 => r1.subject ≤ r2.subject) ∧
  ∀ r, r ∈ update_pc18_sleep_records train test info ↔
    ∃ p ∈ train.map (fun e => ("training", e)) ++ test.map (fun e => ("test", e)),
      ((p.2.fname.startsWith "tr" = true ∨ p.2.fname.startsWith "te" = true) ∧
        ¬ p.2.fname.endsWith "arousal.mat" = true) ∧
      ∃ q ∈ info.enum, q.2.record = recordOf p.2.fname ∧ r = joinedRow p.1 p.2 q.1 q.2

instance : Inhabited SleepRecord :=
  ⟨{ subject := 0, record := "", recordType := none, split := "", age := 0,
     sex := none, sha := "", fname := "" }⟩

/-- `records[records['Record type'] == 'PSG']`. -/
def psgRecords (records : List SleepRecord) : List SleepRecord :=
  records.filter (fun r => r.recordType = some "PSG")

/-- `records[records['Record type'] == 'Header']`. -/
def heaRecords (records : List SleepRecord) : List SleepRecord :=
  records.filter (fun r => r.recordType = some "Header")

/-- `records[records['Record type'] == 'Arousal']`. -/
def arousalRecords (records : List SleepRecord) : List SleepRecord :=
  records.filter (fun r => r.recordType = some "Arousal")

/-- `np.where(tbl['Subject'] == subject)[0]`: the positions in `tbl` whose
`Subject` is `subject`, in increasing order. -/
def matchIdxs (tbl : List SleepRecord) (subject : Nat) : List Nat :=
  (List.range tbl.length).filter (fun i => (tbl.getD i default).subject = subject)

/-- The body of the inner loop of `fetch_pc18_data` at one matching PSG
position `idx` for `subject`: fetch the PSG file and the header file at the
same position, and for a training record also the subject's first arousal
file.  Returns the `(fname, sha)` pairs passed to `_fetch_one` and the
`[psg_fname, hea_fname, arousal_fname]` triple. -/
def fetchAtIdx (psgT heaT arT : List SleepRecord) (f : String → String → String)
    (subject idx : Nat) :
    Option (List (String × String) × (String × String × Option String)) := do
  let psg ← psgT[idx]?
  let hea ← heaT[idx]?
  if psg.split = "training" then
    let tIdx ← (matchIdxs arT subject).head?
    let ar ← arT[tIdx]?
    some ([(psg.fname, psg.sha), (hea.fname, hea.sha), (ar.fname, ar.sha)],
      (f psg.fname psg.sha, f hea.fname hea.sha, some (f ar.fname ar.sha)))
  else
    some ([(psg.fname, psg.sha), (hea.fname, hea.sha)],
      (f psg.fname psg.sha, f hea.fname hea.sha, none))

/-- The `(subject, idx)` pairs visited by the two nested loops of
`fetch_pc18_data`, in iteration order. -/
def fetchPairs (records : List SleepRecord) (subjects : List Nat) : List (Nat × Nat) :=
  subjects.flatMap (fun s => (matchIdxs (psgRecords records) s).map (fun i => (s, i)))

/-- Run a fallible step on each element in order, collecting the results;
`none` as soon as a step fails (a raised Python exception aborts the whole
loop). -/
def seqMapOpt {α β : Type} (g : α → Option β) : List α → Option (List β)
  | [] => some []
  | a :: as => do
    let b ← g a
    let bs ← seqMapOpt g as
    some (b :: bs)

/-- `fetch_pc18_data`: for every subject in `subjects` and every matching
PSG record, download the PSG, header and (for training records) arousal
files through `_fetch_one` and collect one `[psg, hea, arousal]` path
triple per matching PSG record. -/
def fetch_pc18_data (records : List SleepRecord) (f : String → String → String)
    (subjects : List Nat) :
    Option (List (String × String) × List (String × String × Option String)) := do
  let psgT := psgRecords records
  let heaT := heaRecords records
  let arT := arousalRecords records
  let results ← seqMapOpt (fun p => fetchAtIdx psgT heaT arT f p.1 p.2)
    (fetchPairs records subjects)
  some (results.flatMap (fun r => r.1), results.map (fun r => r.2))

/-- The `(fname, sha)` pairs `fetchAtIdx` passes to `_fetch_one` when it
succeeds, in closed form. -/
def callsAt (psgT heaT arT : List SleepRecord) (subject idx : Nat) :
    List (String × String) :=
  let psg := psgT.getD idx default
  let hea := heaT.getD idx default
  if psg.split = "training" then
    let ar := arT.getD ((matchIdxs arT subject).headD 0) default
    [(psg.fname, psg.sha), (hea.fname, hea.sha), (ar.fname, ar.sha)]
  else
    [(psg.fname, psg.sha), (hea.fname, hea.sha)]

/-- The path triple `fetchAtIdx` returns when it succeeds, in closed form. -/
def tripleAt (psgT heaT arT : List SleepRecord) (f : String → String → String)
    (subject idx : Nat) : String × String × Option String :=
  let psg := psgT.getD idx default
  let hea := heaT.getD idx default
  if psg.split = "training" then
    let ar := arT.getD ((matchIdxs arT subject).headD 0) default
    (f psg.fname psg.sha, f hea.fname hea.sha, some (f ar.fname ar.sha))
  else
    (f psg.fname psg.sha, f hea.fname hea.sha, none)

/-- The result shape of a successful fetch: the downloader calls are the
per-record `callsAt` lists concatenated in loop order, and the returned
triples are the per-record `tripleAt` values, one per `(subject, idx)`
pair, in loop order. -/
def fetchCanonical (records : List SleepRecord) (f : String → String → String)
    (subjects : List Nat) : Prop :=
  fetch_pc18_data records f subjects =
    some ((fetchPairs records subjects).flatMap (fun p =>
        callsAt (psgRecords records) (heaRecords records) (arousalRecords records) p.1 p.2),
      (fetchPairs records subjects).map (fun p =>
        tripleAt (psgRecords records) (heaRecords records) (arousalRecords records) f p.1 p.2))

/-- The property asserted by claim C2: the fetch succeeds, every download
goes through `_fetch_one`, the calls for each matching PSG record include
the PSG row's and the header row's `(fname, sha)` pairs, every `(fname,
sha)` pair passed to `_fetch_one` is a row of the records table (the file
name with its recorded SHA-1 checksum), and the returned triples are one
`tripleAt` value per matching PSG record, in subject-list order. -/
def C2Prop (records : List SleepRecord) (f : String → String → String)
    (subjects : List Nat) : Prop :=
  fetchCanonical records f subjects ∧
  (∀ p ∈ fetchPairs records subjects,
    (((psgRecords records).getD p.2 default).fname,
        ((psgRecords records).getD p.2 default).sha) ∈
      callsAt (psgRecords records) (heaRecords records) (arousalRecords records) p.1 p.2 ∧
    (((heaRecords records).getD p.2 default).fname,
        ((heaRecords records).getD p.2 default).sha) ∈
      callsAt (psgRecords records) (heaRecords records) (arousalRecords records) p.1 p.2) ∧
  ∀ p ∈ fetchPairs records subjects,
    ∀ c ∈ callsAt (psgRecords records) (heaRecords records) (arousalRecords records) p.1 p.2,
      ∃ r ∈ records, c = (r.fname, r.sha)

/-- The property asserted by claim C8: the fetch succeeds with the
canonical result, and per matching PSG record the arousal slot of the
triple is `none` exactly when the record's split is not `training`; for a
training record the subject's first arousal row is fetched (its `(fname,
sha)` is among the downloader calls) and its local path is the third slot
of the triple. -/
def C8Prop (records : List SleepRecord) (f : String → String → String)
    (subjects : List Nat) : Prop :=
  fetchCanonical records f subjects ∧
  ∀ p ∈ fetchPairs records subjects,
    ((tripleAt (psgRecords records) (heaRecords records) (arousalRecords records)
        f p.1 p.2).2.2 = none ↔
      ((psgRecords records).getD p.2 default).split ≠ "training") ∧
    (((psgRecords records).getD p.2 default).split = "training" →
      ((arousalRecords records).getD
          ((matchIdxs (arousalRecords records) p.1).headD 0) default) ∈
        arousalRecords records ∧
      ((arousalRecords records).getD
          ((matchIdxs (arousalRecords records) p.1).headD 0) default).subject = p.1 ∧
      (tripleAt (psgRecords records) (heaRecords records) (arousalRecords records)
          f p.1 p.2).2.2 =
        some (f ((arousalRecords records).getD
            ((matchIdxs (arousalRecords records) p.1).headD 0) default).fname
          ((arousalRecords records).getD
            ((matchIdxs (arousalRecords records) p.1).headD 0) default).sha) ∧
      (((arousalRecords records).getD
            ((matchIdxs (arousalRecords records) p.1).headD 0) default).fname,
        ((arousalRecords records).getD
            ((matchIdxs (arousalRecords records) p.1).headD 0) default).sha) ∈
        callsAt (psgRecords records) (heaRecords records) (arousalRecords records) p.1 p.2)

/-- A concrete records table: subject 0 has a test PSG record, subject 1 a
training one (with an arousal row). -/
def recsEx : List SleepRecord :=
  [{ subject := 0, record := "te01-0001", recordType := some "PSG", split := "test",
     age := 60, sex := some "male", sha := "shaTeP",
     fname := "test/te01-0001/te01-0001.mat" },
   { subject := 0, record := "te01-0001", recordType := some "Header", split := "test",
     age := 60, sex := some "male", sha := "shaTeH",
     fname := "test/te01-0001/te01-0001.hea" },
   { subject := 1, record := "tr03-0005", recordType := some "PSG", split := "training",
     age := 55, sex := some "female", sha := "shaTrP",
     fname := "training/tr03-0005/tr03-0005.mat" },
   { subject := 1, record := "tr03-0005", recordType := some "Header", split := "training",
     age := 55, sex := some "female", sha := "shaTrH",
     fname := "training/tr03-0005/tr03-0005.hea" },
   { subject := 1, record := "tr03-0005", recordType := some "Arousal", split := "training",
     age := 55, sex := some "female", sha := "shaTrA",
     fname := "training/tr03-0005/tr03-0005.arousal" }]

/-- A concrete stand-in for `_fetch_one`: map the remote file name to a
local path. -/
def fetchEx : String → String → String :=
  fun fname _ => String.append "/mne_data/pc18-sleep-data/" fname

/-- The `description` Series attached to each `BaseDataset`. -/
structure Desc where
  subject : Nat
  record : String
  split : String
  age : Int
  sex : String
deriving DecidableEq

/-- `braindecode.datasets.BaseDataset(out, desc)`. -/
structure BaseDS (Raw : Type) where
  raw : Raw
  desc : Desc
deriving DecidableEq

/-- The per-subject object collected into the concatenated container:
either a bare `BaseDataset` or, when a windower is given, its output. -/
inductive LoadResult (Raw W : Type) where
  | base (b : BaseDS Raw)
  | windowed (w : W)
deriving DecidableEq

/-- The external callables `_load_raw` delegates to. -/
structure LoadCtx (Raw W : Type) where
  reader : String → Bool → Raw
  readAnn : String → WfdbAnn
  setAnns : Raw → MneAnns → Raw
  preproc : Option (Raw → Raw)
  windower : Option (BaseDS Raw → W)

/-- Processing-step events, for stating the order of operations. -/
inductive Ev where
  | resolvePath
  | fetchFile (fname sha : String)
  | parseRecord (path : String)
  | convertAnns (path : String)
  | preprocess (subj : Nat)
  | window (subj : Nat)
  | collect (n : Nat)
deriving DecidableEq

/-- The last index at which `c` occurs (`str.rfind`). -/
def rfindIdx (cs : List Char) (c : Char) : Option Nat :=
  ((cs.enum.filter (fun q => q.2 = c)).map (fun q => q.1)).getLast?

/-- `os.path.basename`: the part after the last `/`. -/
def basename (p : String) : String :=
  match rfindIdx p.data '/' with
  | some i => String.mk (p.data.drop (i + 1))
  | none => p

/-- `os.path.splitext(p)[0]`: drop the extension, i.e. everything from the
last `.` of the final path component on, provided a non-dot character
precedes that dot within the component (CPython's rule, so dotfiles keep
their name). -/
def splitextStem (p : String) : String :=
  let cs := p.data
  let sepIdx : Int := match rfindIdx cs '/' with
    | some i => (i : Int)
    | none => -1
  let dotIdx : Int := match rfindIdx cs '.' with
    | some i => (i : Int)
    | none => -1
  if sepIdx < dotIdx then
    let start := (sepIdx + 1).toNat
    if ((cs.drop start).take (dotIdx.toNat - start)).any (fun c => c ≠ '.') then
      String.mk (cs.take dotIdx.toNat)
    else p
  else p

/-- `subject_ids` as accepted by `PC18.__init__`: `None`, `'training'`,
`'test'`, or an explicit list. -/
inductive SubjSpec where
  | all
  | trainingOnly
  | testOnly
  | given (ids : List Nat)
deriving DecidableEq

/-- The resolution of `subject_ids` at the top of `PC18.__init__`. -/
def resolveSubjects : SubjSpec → List Nat
  | .all => List.range 1983
  | .trainingOnly => List.range' 989 994
  | .testOnly => List.range 989
  | .given ids => ids

/-- The raw-signal stage of `_load_raw`: call the external record reader on
the extension-less record path, and when an arousal file is present read
the annotation file, convert it (this can raise, hence `Option`), and set
the annotations on the raw object. -/
def rawStage {Raw W : Type} (ctx : LoadCtx Raw W) (recPath : String)
    (arousal_fname : Option String) (load_eeg_only : Bool) : Option Raw :=
  let raw0 := ctx.reader recPath load_eeg_only
  match arousal_fname with
  | some _ => do
      let mneAnns ← convert_wfdb_anns_to_mne (ctx.readAnn recPath)
      some (ctx.setAnns raw0 mneAnns)
  | none => some raw0

/-- `_preprocess(out, preproc)` when `preproc` is not `None`. -/
def preStage {Raw W : Type} (ctx : LoadCtx Raw W) (r : Raw) : Raw :=
  match ctx.preproc with
  | some g => g r
  | none => r

/-- Wrap the `BaseDataset` with the windower when one is given. -/
def wrapResult {Raw W : Type} (ctx : LoadCtx Raw W) (b : BaseDS Raw) : LoadResult Raw W :=
  match ctx.windower with
  | some w => LoadResult.windowed (w b)
  | none => LoadResult.base b

/-- The events `_load_raw` emits for one record, in execution order: parse
the signal record, convert the annotations (when an arousal file is
present), apply the preprocessors (when given), apply the windower (when
given). -/
def loadEvents {Raw W : Type} (ctx : LoadCtx Raw W) (recPath : String) (subj : Nat)
    (arousal_fname : Option String) : List Ev :=
  [Ev.parseRecord recPath] ++
  (if arousal_fname.isSome then [Ev.convertAnns recPath] else []) ++
  (if ctx.preproc.isSome then [Ev.preprocess subj] else []) ++
  (if ctx.windower.isSome then [Ev.window subj] else [])

/-- `PC18._load_raw`: load one record, attach its annotations, look up its
demographics row (`iloc[0]` on an empty match raises, hence `Option`),
build the description, preprocess, wrap into a `BaseDataset` and optionally
window it.  Returns the emitted events and the resulting object. -/
def PC18.load_raw {Raw W : Type} (ctx : LoadCtx Raw W) (info : List InfoEntry)
    (subj_nb : Nat) (raw_fname : String) (arousal_fname : Option String)
    (load_eeg_only : Bool) : Option (List Ev × LoadResult Raw W) := do
  let recPath := splitextStem raw_fname
  let raw1 ← rawStage ctx recPath arousal_fname load_eeg_only
  let record_name := splitextStem (basename raw_fname)
  let record_info ← (info.filter (fun q => q.record = record_name)).head?
  let split := if record_info.record.startsWith "tr" then "training"
    else if record_info.record.startsWith "te" then "test" else "unknown"
  let desc : Desc :=
    { subject := subj_nb
      record := record_info.record
      split := split
      age := record_info.age
      sex := record_info.sex }
  some (loadEvents ctx recPath subj_nb arousal_fname,
    wrapResult ctx { raw := preStage ctx raw1, desc := desc })

/-- `joblib.Parallel(n_jobs=n)(delayed(g)(x) for x in l)`, modelled from
joblib's documented semantics: the tasks are executed (possibly in worker
processes) and their results returned in task-submission order; an
exception raised by any task propagates. -/
def joblibParallel {α β : Type} (_n_jobs : Nat) (g : α → Option β) (l : List α) :
    Option (List β) :=
  seqMapOpt g l

/-- `PC18.__init__`: resolve the subject list, fetch all files, load every
record (sequentially when `n_jobs = 1`, through `joblib.Parallel`
otherwise) and collect the per-subject datasets into the concatenated
container.  Returns the full event trace and the collected list. -/
def PC18.build {Raw W : Type} (ctx : LoadCtx Raw W) (records : List SleepRecord)
    (f : String → String → String) (info : List InfoEntry) (sel : SubjSpec)
    (load_eeg_only : Bool) (n_jobs : Nat) :
    Option (List Ev × List (LoadResult Raw W)) := do
  let subject_ids := resolveSubjects sel
  let (calls, paths) ← fetch_pc18_data records f subject_ids
  let pairs := subject_ids.zip paths
  let loaded ←
    if n_jobs = 1 then
      seqMapOpt (fun q => PC18.load_raw ctx info q.1 q.2.1 q.2.2.2 load_eeg_only) pairs
    else
      joblibParallel n_jobs
        (fun q => PC18.load_raw ctx info q.1 q.2.1 q.2.2.2 load_eeg_only) pairs
  some ([Ev.resolvePath] ++ calls.map (fun c => Ev.fetchFile c.1 c.2) ++
      loaded.flatMap (fun r => r.1) ++ [Ev.collect loaded.length],
    loaded.map (fun r => r.2))

/-- The property asserted by claim C5, as a predicate on the collected
list `res`: one entry per resolved subject id, in order; each entry is the
(optionally windowed) `BaseDataset` whose raw part is assembled from the
external record reader's output (through the annotation and preprocessing
stages) and whose description carries the subject number, the record name,
the split derived from it, and the age and sex of a demographics row. -/
def C5Prop {Raw W : Type} (ctx : LoadCtx Raw W) (info : List InfoEntry) (sel : SubjSpec)
    (eegOnly : Bool) (res : List (LoadResult Raw W)) : Prop :=
  res.length = (resolveSubjects sel).length ∧
  ∀ k, (hk : k < res.length) → ∃ b : BaseDS Raw, ∃ fn : String, ∃ ar : Option String,
    ∃ raw1 : Raw,
    res.get ⟨k, hk⟩ = wrapResult ctx b ∧
    b.desc.subject = (resolveSubjects sel).getD k 0 ∧
    rawStage ctx (splitextStem fn) ar eegOnly = some raw1 ∧
    b.raw = preStage ctx raw1 ∧
    ∃ rI ∈ info, b.desc.record = rI.record ∧ b.desc.age = rI.age ∧ b.desc.sex = rI.sex ∧
      b.desc.split = (if rI.record.startsWith "tr" then "training"
        else if rI.record.startsWith "te" then "test" else "unknown")

/-- The property asserted by claim C7: the trace of a successful
construction is exactly: resolve the data path, then all downloader calls,
then for each subject in order the parse, the annotation conversion (when
an arousal file is present), the preprocessing (when given) and the
windowing (when given), in that order, and finally one collection step. -/
def C7Prop {Raw W : Type} (ctx : LoadCtx Raw W) (records : List SleepRecord)
    (f : String → String → String) (sel : SubjSpec) (tr : List Ev)
    (res : List (LoadResult Raw W)) : Prop :=
  ∃ calls paths,
    fetch_pc18_data records f (resolveSubjects sel) = some (calls, paths) ∧
    tr = [Ev.resolvePath] ++ calls.map (fun c => Ev.fetchFile c.1 c.2) ++
      ((resolveSubjects sel).zip paths).flatMap
        (fun q => loadEvents ctx (splitextStem q.2.1) q.1 q.2.2.2) ++
      [Ev.collect res.length]

/-- Concrete external callables: `Raw` is `Nat` (the reader returns `7`,
setting annotations bumps it to `8`), no preprocessors, no windower. -/
def ctxEx : LoadCtx Nat Unit :=
  { reader := fun _ _ => 7
    readAnn := fun _ => annEx
    setAnns := fun r _ => r + 1
    preproc := none
    windower := none }

/-- A concrete demographics table matching `recsEx`. -/
def infoEx : List InfoEntry :=
  [{ record := "te01-0001", age := 60, sex := "M" },
   { record := "tr03-0005", age := 55, sex := "F" }]

/-- The trace of building `PC18` over `recsEx` for subjects `[0, 1]`. -/
def trEx : List Ev :=
  [Ev.resolvePath,
   Ev.fetchFile "test/te01-0001/te01-0001.mat" "shaTeP",
   Ev.fetchFile "test/te01-0001/te01-0001.hea" "shaTeH",
   Ev.fetchFile "training/tr03-0005/tr03-0005.mat" "shaTrP",
   Ev.fetchFile "training/tr03-0005/tr03-0005.hea" "shaTrH",
   Ev.fetchFile "training/tr03-0005/tr03-0005.arousal" "shaTrA",
   Ev.parseRecord "/mne_data/pc18-sleep-data/test/te01-0001/te01-0001",
   Ev.parseRecord "/mne_data/pc18-sleep-data/training/tr03-0005/tr03-0005",
   Ev.convertAnns "/mne_data/pc18-sleep-data/training/tr03-0005/tr03-0005",
   Ev.collect 2]

/-- The collected datasets of that same build. -/
def resEx : List (LoadResult Nat Unit) :=
  [LoadResult.base ⟨7, ⟨0, "te01-0001", "test", 60, "M"⟩⟩,
   LoadResult.base ⟨8, ⟨1, "tr03-0005", "training", 55, "F"⟩⟩]

/-! ## Theorems -/

example :
    convert_wfdb_anns_to_mne ⟨[0, 6, 12], [0, 0, 0], ["W", "N1", "N2"], 2⟩ =
      some ⟨[0, 3, 6], [3, 3, 30], ["W", "N1", "N2"]⟩ := by
  with_unfolding_all decide

example :
    convert_wfdb_anns_to_mne ⟨[0, 6], [0, 0], ["(arousal", "arousal)"], 2⟩ =
      some ⟨[], [], []⟩ := by
  with_unfolding_all decide

example :
    convert_wfdb_anns_to_mne ⟨[6, 0], [0, 0], ["W", "N1"], 2⟩ = none := by
  with_unfolding_all decide

theorem diffList_length (l : List ℚ) : (diffList l).length = l.length - 1 := by
  induction l with
  | nil => simp [diffList]
  | cons x xs ih =>
    cases xs with
    | nil => simp [diffList]
    | cons y rest =>
      simp only [diffList, List.length_cons] at ih ⊢
      omega

theorem diffList_getD (l : List ℚ) (i : Nat) (h : i + 1 < l.length) :
    (diffList l).getD i 0 = l.getD (i + 1) 0 - l.getD i 0 := by
  induction l generalizing i with
  | nil => simp at h
  | cons x xs ih =>
    cases xs with
    | nil => simp at h
    | cons y rest =>
      cases i with
      | zero => simp [diffList]
      | succ j =>
        have hj : j + 1 < (y :: rest).length := by
          simpa using Nat.lt_of_succ_lt_succ h
        simpa [diffList] using ih j hj

theorem diffList_pos (l : List ℚ) (hl : l.Chain' (· < ·)) :
    ∀ d ∈ diffList l, 0 < d := by
  induction l with
  | nil => simp [diffList]
  | cons x xs ih =>
    cases xs with
    | nil => simp [diffList]
    | cons y rest =>
      rw [List.chain'_cons] at hl
      intro d hd
      simp only [diffList, List.mem_cons] at hd
      rcases hd with h1 | h2
      · subst h1; linarith [hl.1]
      · exact ih hl.2 d h2

theorem durs_all_pos (l : List ℚ) (hl : l.Chain' (· < ·)) :
    (diffList l ++ [30]).all (fun d => decide (0 < d)) = true := by
  rw [List.all_eq_true]
  intro d hd
  rw [List.mem_append] at hd
  rcases hd with h1 | h2
  · simpa using diffList_pos l hl d h1
  · simp only [List.mem_singleton] at h2
    subst h2
    simp only [decide_eq_true_eq]
    norm_num

theorem filterMask_zip_map {β γ : Type} (f : β → γ) (ch : Nat) :
    ∀ (c : List Nat) (s : List β),
      (c.zip (s.map f)).filterMap (fun p => if p.1 = ch then some p.2 else none) =
        ((c.zip s).filterMap (fun p => if p.1 = ch then some p.2 else none)).map f := by
  intro c
  induction c with
  | nil => intro s; simp
  | cons a as ih =>
    intro s
    cases s with
    | nil => simp
    | cons b bs =>
      by_cases hab : a = ch
      · simp [hab, ih]
      · simp [hab, ih]

theorem chOnsets_eq_map (a : WfdbAnn) (ch : Nat) :
    a.chOnsets ch = (a.chSamples ch).map (fun (s : Nat) => (s : ℚ) / a.fs) := by
  unfold WfdbAnn.chOnsets WfdbAnn.chSamples WfdbAnn.onsets
  exact filterMask_zip_map (fun (s : Nat) => (s : ℚ) / a.fs) ch a.chan a.sample

theorem chOnsets_ne_nil (a : WfdbAnn) (hlen : a.chan.length = a.sample.length)
    {ch : Nat} (hch : ch ∈ a.annChs) : a.chOnsets ch ≠ [] := by
  have hch' : ch ∈ a.chan := List.mem_dedup.mp hch
  obtain ⟨i, hi, hget⟩ := List.mem_iff_getElem.mp hch'
  have honl : a.onsets.length = a.chan.length := by
    simp [WfdbAnn.onsets, hlen]
  have hzlen : i < (a.chan.zip a.onsets).length := by
    rw [List.length_zip]
    omega
  have hon : i < a.onsets.length := by omega
  apply List.ne_nil_of_mem (a := a.onsets[i])
  apply List.mem_filterMap.mpr
  refine ⟨(ch, a.onsets[i]), ?_, by simp⟩
  have hz : (a.chan.zip a.onsets)[i] = (a.chan[i], a.onsets[i]) := List.getElem_zip
  rw [hget] at hz
  exact hz ▸ List.getElem_mem hzlen

theorem convertLoop_eq_some (a : WfdbAnn) (chs : List Nat) (acc m : MneAnns)
    (h : convertLoop a chs acc = some m) :
    m.onset = acc.onset ++ chs.flatMap (emittedOnsets a) ∧
    m.duration = acc.duration ++ chs.flatMap (emittedDurs a) ∧
    m.description = acc.description ++ chs.flatMap (emittedDescs a) := by
  induction chs generalizing acc with
  | nil =>
    simp only [convertLoop, Option.some.injEq] at h
    subst h
    simp
  | cons ch rest ih =>
    simp only [convertLoop] at h
    by_cases hm : allIntervalMarkers (a.chDescs ch)
    · rw [if_pos hm] at h
      obtain ⟨h1, h2, h3⟩ := ih acc h
      simp [h1, h2, h3, emittedOnsets, emittedDurs, emittedDescs, hm]
    · rw [if_neg hm] at h
      by_cases hd : (diffList (a.chOnsets ch) ++ [30]).all (fun d => decide (0 < d))
      · rw [if_pos hd] at h
        obtain ⟨h1, h2, h3⟩ := ih _ h
        simp [h1, h2, h3, emittedOnsets, emittedDurs, emittedDescs, hm,
          List.append_assoc]
      · rw [if_neg hd] at h
        exact absurd h (by simp)

theorem convertLoop_filter (a : WfdbAnn) (chs : List Nat) (acc : MneAnns) :
    convertLoop a chs acc =
      convertLoop a (chs.filter (fun ch => !allIntervalMarkers (a.chDescs ch))) acc := by
  induction chs generalizing acc with
  | nil => rfl
  | cons ch rest ih =>
    by_cases hm : allIntervalMarkers (a.chDescs ch)
    · rw [List.filter_cons_of_neg (by simp [hm])]
      simp only [convertLoop, if_pos hm]
      exact ih acc
    · rw [List.filter_cons_of_pos (by simp [hm])]
      simp only [convertLoop, if_neg hm]
      by_cases hd : (diffList (a.chOnsets ch) ++ [30]).all (fun d => decide (0 < d))
      · rw [if_pos hd, if_pos hd]
        exact ih _
      · rw [if_neg hd, if_neg hd]

theorem convertLoop_isSome (a : WfdbAnn) (chs : List Nat) (acc : MneAnns)
    (h : ∀ ch ∈ chs, (a.chOnsets ch).Chain' (· < ·)) :
    (convertLoop a chs acc).isSome = true := by
  induction chs generalizing acc with
  | nil => simp [convertLoop]
  | cons ch rest ih =>
    simp only [convertLoop]
    by_cases hm : allIntervalMarkers (a.chDescs ch)
    · rw [if_pos hm]
      exact ih acc (fun c hc => h c (List.mem_cons_of_mem _ hc))
    · rw [if_neg hm]
      rw [if_pos (durs_all_pos _ (h ch (List.mem_cons_self _ _)))]
      exact ih _ (fun c hc => h c (List.mem_cons_of_mem _ hc))

/-- Claim C1: for every input annotation object (with the wfdb invariant
that `chan` and `sample` are parallel arrays) on which the converter
succeeds, and every channel whose description strings are not all
parenthesis-delimited event markers, `convert_wfdb_anns_to_mne_annotations`
emits one output annotation per sample on that channel, with onset
`sample / fs`, with duration the difference between the next onset on the
channel and this one, and with the channel's last duration exactly 30. -/
theorem convert_emits_per_channel (a : WfdbAnn) (m : MneAnns)
    (hlen : a.chan.length = a.sample.length)
    (h : convert_wfdb_anns_to_mne a = some m) : C1Prop a m := by
  obtain ⟨h1, h2, h3⟩ := convertLoop_eq_some a a.annChs ⟨[], [], []⟩ m h
  refine ⟨by simpa using h1, by simpa using h2, by simpa using h3, ?_⟩
  intro ch hch hmark
  have hne : a.chOnsets ch ≠ [] := chOnsets_ne_nil a hlen hch
  have hlen1 : 1 ≤ (a.chOnsets ch).length := by
    cases hh : a.chOnsets ch with
    | nil => exact absurd hh hne
    | cons x xs => simp [hh]
  have hmark' : ¬ allIntervalMarkers (a.chDescs ch) = true := by simp [hmark]
  refine ⟨?_, ?_, ?_, ?_⟩
  · rw [emittedOnsets, if_neg hmark']
    exact chOnsets_eq_map a ch
  · rw [emittedOnsets, emittedDurs, if_neg hmark', if_neg hmark']
    rw [List.length_append, diffList_length]
    simp
    omega
  · intro i hi
    rw [emittedOnsets, if_neg hmark'] at hi
    rw [emittedOnsets, emittedDurs, if_neg hmark', if_neg hmark']
    have hid : i < (diffList (a.chOnsets ch)).length := by
      rw [diffList_length]; omega
    rw [List.getD_append _ _ _ _ hid]
    exact diffList_getD _ i hi
  · rw [emittedDurs, if_neg hmark']
    exact List.getLast?_concat _

theorem convert_emits_per_channel_witness :
    annEx.chan.length = annEx.sample.length ∧
    convert_wfdb_anns_to_mne annEx = some mneEx ∧ C1Prop annEx mneEx :=
  ⟨by with_unfolding_all decide, by with_unfolding_all decide,
    convert_emits_per_channel annEx mneEx (by with_unfolding_all decide)
      (by with_unfolding_all decide)⟩

/-- Claim C9: a channel all of whose description strings start with `'('` or
end with `')'` contributes nothing to the output: the converter computes the
same result as the loop run only over the channels that are not
interval-marker channels, so all interval-marker events are dropped. -/
theorem convert_drops_interval_channels (a : WfdbAnn) :
    convert_wfdb_anns_to_mne a =
      convertLoop a (a.annChs.filter (fun ch => !allIntervalMarkers (a.chDescs ch)))
        ⟨[], [], []⟩ :=
  convertLoop_filter a a.annChs ⟨[], [], []⟩

/-- Claim C10: if on each channel the onsets are strictly increasing, the
`'Negative duration'` assertion never fails: the converter returns a result
(rather than the `none` that models the raised `AssertionError`). -/
theorem convert_assert_never_fails (a : WfdbAnn)
    (h : ∀ ch ∈ a.annChs, (a.chOnsets ch).Chain' (· < ·)) :
    (convert_wfdb_anns_to_mne a).isSome = true :=
  convertLoop_isSome a a.annChs ⟨[], [], []⟩ h

theorem annEx_chain : ∀ ch ∈ annEx.annChs, (annEx.chOnsets ch).Chain' (· < ·) := by
  have h01 : annEx.annChs = [0, 1] := by with_unfolding_all decide
  have hc0 : annEx.chOnsets 0 = [0, 3, 6] := by with_unfolding_all decide
  have hc1 : annEx.chOnsets 1 = [2, 5] := by with_unfolding_all decide
  intro ch hch
  rw [h01] at hch
  simp only [List.mem_cons, List.not_mem_nil, or_false] at hch
  rcases hch with h | h
  · subst h
    rw [hc0]
    refine List.chain'_cons.mpr ⟨by norm_num, ?_⟩
    refine List.chain'_cons.mpr ⟨by norm_num, List.chain'_singleton _⟩
  · subst h
    rw [hc1]
    exact List.chain'_cons.mpr ⟨by norm_num, List.chain'_singleton _⟩

theorem convert_assert_never_fails_witness :
    (∀ ch ∈ annEx.annChs, (annEx.chOnsets ch).Chain' (· < ·)) ∧
    (convert_wfdb_anns_to_mne annEx).isSome = true :=
  ⟨annEx_chain, convert_assert_never_fails annEx annEx_chain⟩

/-- Claim C4: for every resolved base path, `_data_path` returns the path
itself when the directory listing contains an entry named `training` or
`test`, and otherwise returns the path with `pc18-sleep-data` appended. -/
theorem data_path_cases (path : String) (subdirs : List String) :
    (("training" ∈ subdirs ∨ "test" ∈ subdirs) → data_path path subdirs = path) ∧
    (¬ ("training" ∈ subdirs ∨ "test" ∈ subdirs) →
      data_path path subdirs = joinPath path "pc18-sleep-data") := by
  constructor
  · intro h
    rw [data_path, if_pos h]
  · intro h
    rw [data_path, if_neg h]

theorem data_path_cases_witness :
    data_path "/data" ["training", "misc"] = "/data" ∧
    data_path "/data" ["misc"] = joinPath "/data" "pc18-sleep-data" :=
  ⟨(data_path_cases "/data" ["training", "misc"]).1 (Or.inl (by simp)),
    (data_path_cases "/data" ["misc"]).2 (by simp)⟩

theorem selectRecord_iff (f : String) :
    selectRecord f = true ↔
      ((f.startsWith "tr" = true ∨ f.startsWith "te" = true) ∧
        ¬ f.endsWith "arousal.mat" = true) := by
  simp [selectRecord]

/-- Claim C3: `update_pc18_sleep_records` builds the records table by
concatenating the training and test checksum listings, filtering to rows
whose file name starts with `tr` or `te` and does not end with
`arousal.mat`, joining with the demographics table on the `Record` column,
and writing the result sorted by `Subject`. -/
theorem update_builds_join (train test : List ShaEntry) (info : List InfoEntry) :
    C3Prop train test info := by
  constructor
  · have hs := @List.sorted_mergeSort SleepRecord
      (fun r1 r2 : SleepRecord => decide (r1.subject ≤ r2.subject))
      (fun a b c hab hbc => by
        simp only [decide_eq_true_eq] at hab hbc ⊢
        omega)
      (fun a b => by
        simp only [Bool.or_eq_true, decide_eq_true_eq]
        omega)
      ((train.map (fun e => ("training", e)) ++ test.map (fun e => ("test", e))).filter
          (fun p => selectRecord p.2.fname) |>.flatMap (fun p =>
        (info.enum.filter (fun q => q.2.record = recordOf p.2.fname)).map (fun q =>
          joinedRow p.1 p.2 q.1 q.2)))
    refine List.Pairwise.imp ?_ hs
    intro a b hab
    simpa using hab
  · intro r
    simp only [update_pc18_sleep_records, List.mem_mergeSort, List.mem_flatMap,
      List.mem_filter, List.mem_map]
    constructor
    · rintro ⟨p, ⟨hp, hsel⟩, q, ⟨hq, hrec⟩, hr⟩
      exact ⟨p, hp, (selectRecord_iff _).mp hsel, q, hq, of_decide_eq_true hrec, hr.symm⟩
    · rintro ⟨p, hp, hcond, q, hq, hrec, hr⟩
      exact ⟨p, ⟨hp, (selectRecord_iff _).mpr hcond⟩, q, ⟨hq, decide_eq_true hrec⟩, hr.symm⟩

theorem seqMapOpt_eq_some_of_forall {α β : Type} (g : α → Option β) (h : α → β)
    (l : List α) (hg : ∀ x ∈ l, g x = some (h x)) : seqMapOpt g l = some (l.map h) := by
  induction l with
  | nil => rfl
  | cons a as ih =>
    have ha := hg a (List.mem_cons_self a as)
    have has := ih (fun x hx => hg x (List.mem_cons_of_mem a hx))
    simp [seqMapOpt, ha, has]

theorem matchIdxs_lt (tbl : List SleepRecord) (s j : Nat) (hj : j ∈ matchIdxs tbl s) :
    j < tbl.length := by
  unfold matchIdxs at hj
  rw [List.mem_filter] at hj
  exact List.mem_range.mp hj.1

theorem matchIdxs_subject (tbl : List SleepRecord) (s j : Nat)
    (hj : j ∈ matchIdxs tbl s) : (tbl.getD j default).subject = s := by
  unfold matchIdxs at hj
  rw [List.mem_filter] at hj
  exact of_decide_eq_true hj.2

theorem mem_fetchPairs (records : List SleepRecord) (subjects : List Nat)
    (p : Nat × Nat) (hp : p ∈ fetchPairs records subjects) :
    p.1 ∈ subjects ∧ p.2 ∈ matchIdxs (psgRecords records) p.1 := by
  unfold fetchPairs at hp
  rw [List.mem_flatMap] at hp
  obtain ⟨s, hs, hmem⟩ := hp
  rw [List.mem_map] at hmem
  obtain ⟨i, hi, rfl⟩ := hmem
  exact ⟨hs, hi⟩

theorem fetchAtIdx_eq (psgT heaT arT : List SleepRecord) (f : String → String → String)
    (s i : Nat) (hpsg : i < psgT.length) (hhea : i < heaT.length)
    (har : (psgT.getD i default).split = "training" → matchIdxs arT s ≠ []) :
    fetchAtIdx psgT heaT arT f s i =
      some (callsAt psgT heaT arT s i, tripleAt psgT heaT arT f s i) := by
  unfold fetchAtIdx callsAt tripleAt
  rw [List.getD_eq_getElem psgT default hpsg] at har
  rw [List.getD_eq_getElem psgT default hpsg, List.getD_eq_getElem heaT default hhea]
  rw [List.getElem?_eq_getElem hpsg, List.getElem?_eq_getElem hhea]
  by_cases hsp : psgT[i].split = "training"
  · rcases hm : matchIdxs arT s with _ | ⟨j, rest⟩
    · exact absurd hm (har hsp)
    · have hj : j ∈ matchIdxs arT s := by
        rw [hm]
        exact List.mem_cons_self _ _
      have hjlt : j < arT.length := matchIdxs_lt arT s j hj
      simp [hsp, hm, List.getElem?_eq_getElem hjlt,
        List.getD_eq_getElem arT default hjlt]
  · simp [hsp]

theorem fetch_canonical_of (records : List SleepRecord) (f : String → String → String)
    (subjects : List Nat)
    (hhea : (heaRecords records).length = (psgRecords records).length)
    (har : ∀ s ∈ subjects, ∀ i ∈ matchIdxs (psgRecords records) s,
      ((psgRecords records).getD i default).split = "training" →
        matchIdxs (arousalRecords records) s ≠ []) :
    fetchCanonical records f subjects := by
  unfold fetchCanonical fetch_pc18_data
  dsimp only
  rw [seqMapOpt_eq_some_of_forall _
    (fun p : Nat × Nat => (callsAt (psgRecords records) (heaRecords records)
        (arousalRecords records) p.1 p.2,
      tripleAt (psgRecords records) (heaRecords records) (arousalRecords records) f p.1 p.2))
    (fetchPairs records subjects)
    (fun p hp => by
      obtain ⟨hs, hi⟩ := mem_fetchPairs records subjects p hp
      exact fetchAtIdx_eq _ _ _ f p.1 p.2 (matchIdxs_lt _ _ _ hi)
        (by rw [hhea]; exact matchIdxs_lt _ _ _ hi) (har p.1 hs p.2 hi))]
  simp [List.flatMap_map, List.map_map, Function.comp]

theorem getD_mem_of_lt {l : List SleepRecord} {i : Nat} (h : i < l.length) :
    l.getD i default ∈ l := by
  rw [List.getD_eq_getElem l default h]
  exact List.getElem_mem h

/-- Claim C2: for every subject list, `fetch_pc18_data` delegates every
download to the external checksum-verified downloader `_fetch_one`, passing
for each matching PSG record the file name and its recorded SHA-1 checksum
for both the PSG file and the header file, and returns one
`[psg, hea, arousal]` triple per matching PSG record, in subject-list
order.  The hypotheses say the header partition of the table is as long as
the PSG partition (the header file of a record is looked up purely
positionally) and that training records have an arousal row. -/
theorem fetch_delegates_with_checksums (records : List SleepRecord)
    (f : String → String → String) (subjects : List Nat)
    (hhea : (heaRecords records).length = (psgRecords records).length)
    (har : ∀ s ∈ subjects, ∀ i ∈ matchIdxs (psgRecords records) s,
      ((psgRecords records).getD i default).split = "training" →
        matchIdxs (arousalRecords records) s ≠ []) :
    C2Prop records f subjects := by
  refine ⟨fetch_canonical_of records f subjects hhea har, ?_, ?_⟩
  · intro p hp
    unfold callsAt
    dsimp only
    by_cases hsp : ((psgRecords records).getD p.2 default).split = "training"
    · rw [if_pos hsp]
      exact ⟨by simp, by simp⟩
    · rw [if_neg hsp]
      exact ⟨by simp, by simp⟩
  · intro p hp c hc
    obtain ⟨hs, hi⟩ := mem_fetchPairs records subjects p hp
    have hplt : p.2 < (psgRecords records).length := matchIdxs_lt _ _ _ hi
    have hhlt : p.2 < (heaRecords records).length := by rw [hhea]; exact hplt
    unfold callsAt at hc
    dsimp only at hc
    by_cases hsp : ((psgRecords records).getD p.2 default).split = "training"
    · rw [if_pos hsp] at hc
      simp only [List.mem_cons, List.not_mem_nil, or_false] at hc
      rcases hc with h1 | h2 | h3
      · exact ⟨_, List.mem_of_mem_filter (getD_mem_of_lt hplt), h1⟩
      · exact ⟨_, List.mem_of_mem_filter (getD_mem_of_lt hhlt), h2⟩
      · have hne := har p.1 hs p.2 hi hsp
        rcases hm : matchIdxs (arousalRecords records) p.1 with _ | ⟨j, rest⟩
        · exact absurd hm hne
        · have hj : j ∈ matchIdxs (arousalRecords records) p.1 := by
            rw [hm]
            exact List.mem_cons_self _ _
          have hjlt := matchIdxs_lt _ _ _ hj
          rw [hm] at h3
          simp only [List.headD_cons] at h3
          exact ⟨_, List.mem_of_mem_filter (getD_mem_of_lt hjlt), h3⟩
    · rw [if_neg hsp] at hc
      simp only [List.mem_cons, List.not_mem_nil, or_false] at hc
      rcases hc with h1 | h2
      · exact ⟨_, List.mem_of_mem_filter (getD_mem_of_lt hplt), h1⟩
      · exact ⟨_, List.mem_of_mem_filter (getD_mem_of_lt hhlt), h2⟩

/-- Claim C8: the arousal slot of a returned triple is `None` if and only
if the record's split is not `training`; for training records the arousal
annotation file is also fetched with its recorded checksum and its local
path is returned in the third slot. -/
theorem fetch_arousal_iff_training (records : List SleepRecord)
    (f : String → String → String) (subjects : List Nat)
    (hhea : (heaRecords records).length = (psgRecords records).length)
    (har : ∀ s ∈ subjects, ∀ i ∈ matchIdxs (psgRecords records) s,
      ((psgRecords records).getD i default).split = "training" →
        matchIdxs (arousalRecords records) s ≠ []) :
    C8Prop records f subjects := by
  refine ⟨fetch_canonical_of records f subjects hhea har, ?_⟩
  intro p hp
  obtain ⟨hs, hi⟩ := mem_fetchPairs records subjects p hp
  unfold tripleAt callsAt
  dsimp only
  by_cases hsp : ((psgRecords records).getD p.2 default).split = "training"
  · rw [if_pos hsp, if_pos hsp]
    have hne := har p.1 hs p.2 hi hsp
    rcases hm : matchIdxs (arousalRecords records) p.1 with _ | ⟨j, rest⟩
    · exact absurd hm hne
    · have hj : j ∈ matchIdxs (arousalRecords records) p.1 := by
        rw [hm]
        exact List.mem_cons_self _ _
      have hjlt := matchIdxs_lt _ _ _ hj
      have hsubj := matchIdxs_subject _ _ _ hj
      constructor
      · exact ⟨fun h => by simp at h, fun hneq => absurd hsp hneq⟩
      · intro _
        simp only [List.headD_cons]
        exact ⟨getD_mem_of_lt hjlt, hsubj, by simp, by simp⟩
  · rw [if_neg hsp, if_neg hsp]
    exact ⟨Iff.intro (fun _ => hsp) (fun _ => rfl), fun h => absurd h hsp⟩

theorem fetch_delegates_with_checksums_witness :
    (heaRecords recsEx).length = (psgRecords recsEx).length ∧
    (∀ s ∈ [0, 1], ∀ i ∈ matchIdxs (psgRecords recsEx) s,
      ((psgRecords recsEx).getD i default).split = "training" →
        matchIdxs (arousalRecords recsEx) s ≠ []) ∧
    C2Prop recsEx fetchEx [0, 1] :=
  ⟨by with_unfolding_all decide, by with_unfolding_all decide,
    fetch_delegates_with_checksums recsEx fetchEx [0, 1]
      (by with_unfolding_all decide) (by with_unfolding_all decide)⟩

theorem seqMapOpt_forall2 {α β : Type} (g : α → Option β) :
    ∀ (l : List α) (out : List β), seqMapOpt g l = some out →
      List.Forall₂ (fun a b => g a = some b) l out := by
  intro l
  induction l with
  | nil =>
    intro out h
    simp only [seqMapOpt, Option.some.injEq] at h
    subst h
    exact List.Forall₂.nil
  | cons a as ih =>
    intro out h
    simp only [seqMapOpt] at h
    cases hga : g a with
    | none =>
      rw [hga] at h
      exact absurd h (by simp)
    | some b =>
      rw [hga] at h
      cases hgs : seqMapOpt g as with
      | none =>
        rw [hgs] at h
        exact absurd h (by simp)
      | some bs =>
        rw [hgs] at h
        simp only [Option.bind_eq_bind, Option.some_bind, Option.some.injEq] at h
        subst h
        exact List.Forall₂.cons hga (ih bs hgs)

theorem fetchPairs_length_of_uniq (records : List SleepRecord) (subjects : List Nat)
    (huniq : ∀ s ∈ subjects, (matchIdxs (psgRecords records) s).length = 1) :
    (fetchPairs records subjects).length = subjects.length := by
  unfold fetchPairs
  induction subjects with
  | nil => rfl
  | cons s ss ih =>
    rw [List.flatMap_cons, List.length_append, List.length_map,
      huniq s (List.mem_cons_self _ _), ih (fun x hx => huniq x (List.mem_cons_of_mem _ hx))]
    simp only [List.length_cons]
    omega

theorem fetch_inv (records : List SleepRecord) (f : String → String → String)
    (subjects : List Nat) (calls : List (String × String))
    (paths : List (String × String × Option String))
    (h : fetch_pc18_data records f subjects = some (calls, paths)) :
    ∃ results, seqMapOpt (fun p => fetchAtIdx (psgRecords records) (heaRecords records)
        (arousalRecords records) f p.1 p.2) (fetchPairs records subjects) = some results ∧
      calls = results.flatMap (fun r => r.1) ∧ paths = results.map (fun r => r.2) := by
  unfold fetch_pc18_data at h
  dsimp only at h
  cases hq : seqMapOpt (fun p => fetchAtIdx (psgRecords records) (heaRecords records)
      (arousalRecords records) f p.1 p.2) (fetchPairs records subjects) with
  | none =>
    rw [hq] at h
    exact absurd h (by simp)
  | some results =>
    rw [hq] at h
    simp only [Option.bind_eq_bind, Option.some_bind, Option.some.injEq, Prod.mk.injEq] at h
    exact ⟨results, rfl, h.1.symm, h.2.symm⟩

theorem build_inv {Raw W : Type} (ctx : LoadCtx Raw W) (records : List SleepRecord)
    (f : String → String → String) (info : List InfoEntry) (sel : SubjSpec)
    (load_eeg_only : Bool) (n_jobs : Nat) (tr : List Ev) (res : List (LoadResult Raw W))
    (h : PC18.build ctx records f info sel load_eeg_only n_jobs = some (tr, res)) :
    ∃ calls paths loaded,
      fetch_pc18_data records f (resolveSubjects sel) = some (calls, paths) ∧
      seqMapOpt (fun q => PC18.load_raw ctx info q.1 q.2.1 q.2.2.2 load_eeg_only)
        ((resolveSubjects sel).zip paths) = some loaded ∧
      tr = [Ev.resolvePath] ++ calls.map (fun c => Ev.fetchFile c.1 c.2) ++
        loaded.flatMap (fun r => r.1) ++ [Ev.collect loaded.length] ∧
      res = loaded.map (fun r => r.2) := by
  unfold PC18.build at h
  dsimp only at h
  unfold joblibParallel at h
  simp only [ite_self] at h
  cases hf : fetch_pc18_data records f (resolveSubjects sel) with
  | none =>
    rw [hf] at h
    exact absurd h (by simp)
  | some cp =>
    obtain ⟨calls, paths⟩ := cp
    rw [hf] at h
    simp only [Option.bind_eq_bind, Option.some_bind] at h
    cases hl : seqMapOpt (fun q => PC18.load_raw ctx info q.1 q.2.1 q.2.2.2 load_eeg_only)
        ((resolveSubjects sel).zip paths) with
    | none =>
      rw [hl] at h
      exact absurd h (by simp)
    | some loaded =>
      rw [hl] at h
      simp only [Option.bind_eq_bind, Option.some_bind, Option.some.injEq, Prod.mk.injEq] at h
      exact ⟨calls, paths, loaded, rfl, hl, h.1.symm, h.2.symm⟩

theorem load_raw_inv {Raw W : Type} (ctx : LoadCtx Raw W) (info : List InfoEntry)
    (s : Nat) (fn : String) (ar : Option String) (eegOnly : Bool)
    (evs : List Ev) (r : LoadResult Raw W)
    (h : PC18.load_raw ctx info s fn ar eegOnly = some (evs, r)) :
    ∃ raw1 rI,
      rawStage ctx (splitextStem fn) ar eegOnly = some raw1 ∧
      (info.filter (fun q => q.record = splitextStem (basename fn))).head? = some rI ∧
      rI ∈ info ∧ rI.record = splitextStem (basename fn) ∧
      evs = loadEvents ctx (splitextStem fn) s ar ∧
      r = wrapResult ctx
        { raw := preStage ctx raw1
          desc :=
            { subject := s
              record := rI.record
              split := if rI.record.startsWith "tr" then "training"
                else if rI.record.startsWith "te" then "test" else "unknown"
              age := rI.age
              sex := rI.sex } } := by
  unfold PC18.load_raw at h
  dsimp only at h
  cases hr : rawStage ctx (splitextStem fn) ar eegOnly with
  | none =>
    rw [hr] at h
    exact absurd h (by simp)
  | some raw1 =>
    rw [hr] at h
    cases hh : (info.filter (fun q => q.record = splitextStem (basename fn))).head? with
    | none =>
      rw [hh] at h
      exact absurd h (by simp)
    | some rI =>
      rw [hh] at h
      simp only [Option.bind_eq_bind, Option.some_bind, Option.some.injEq, Prod.mk.injEq] at h
      have hmem : rI ∈ info.filter (fun q => q.record = splitextStem (basename fn)) :=
        List.mem_of_mem_head? (by rw [hh]; exact rfl)
      rw [List.mem_filter] at hmem
      exact ⟨raw1, rI, rfl, rfl, hmem.1, of_decide_eq_true hmem.2, h.1.symm, h.2.symm⟩

theorem load_trace_flatMap {Raw W : Type} (ctx : LoadCtx Raw W) (info : List InfoEntry)
    (eegOnly : Bool) (pairs : List (Nat × String × String × Option String))
    (loaded : List (List Ev × LoadResult Raw W))
    (hf : List.Forall₂ (fun q r => PC18.load_raw ctx info q.1 q.2.1 q.2.2.2 eegOnly = some r)
      pairs loaded) :
    loaded.flatMap (fun r => r.1) =
      pairs.flatMap (fun q => loadEvents ctx (splitextStem q.2.1) q.1 q.2.2.2) := by
  induction hf with
  | nil => rfl
  | cons hab htail ih =>
    rename_i a b l1 l2
    obtain ⟨raw1, rI, _, _, _, _, hevs, _⟩ :=
      load_raw_inv ctx info a.1 a.2.1 a.2.2.2 eegOnly b.1 b.2 hab
    simp only [List.flatMap_cons, ih, hevs]

/-- Claim C5: for every constructed PC18 dataset (under the dataset
invariant that each requested subject has exactly one PSG record, which is
what makes `zip(subject_ids, paths)` align), the concatenated container
holds exactly one result dataset object per entry of `subject_ids`, in
order, each assembled from the external record reader's output and
described with the subject number, record name, split, age and sex
fields. -/
theorem pc18_one_per_subject {Raw W : Type} (ctx : LoadCtx Raw W)
    (records : List SleepRecord) (f : String → String → String) (info : List InfoEntry)
    (sel : SubjSpec) (load_eeg_only : Bool) (n_jobs : Nat) (tr : List Ev)
    (res : List (LoadResult Raw W))
    (hbuild : PC18.build ctx records f info sel load_eeg_only n_jobs = some (tr, res))
    (huniq : ∀ s ∈ resolveSubjects sel, (matchIdxs (psgRecords records) s).length = 1) :
    C5Prop ctx info sel load_eeg_only res := by
  obtain ⟨calls, paths, loaded, hf, hl, htr, hres⟩ :=
    build_inv ctx records f info sel load_eeg_only n_jobs tr res hbuild
  obtain ⟨results, hq, hcalls, hpaths⟩ :=
    fetch_inv records f (resolveSubjects sel) calls paths hf
  have hfp := (seqMapOpt_forall2 _ _ _ hq).length_eq
  have hplen : paths.length = (resolveSubjects sel).length := by
    rw [hpaths, List.length_map, ← hfp, fetchPairs_length_of_uniq records _ huniq]
  have hzlen : ((resolveSubjects sel).zip paths).length = (resolveSubjects sel).length := by
    rw [List.length_zip, hplen, min_self]
  have h2 := seqMapOpt_forall2 _ _ _ hl
  have hllen := h2.length_eq
  have hreslen : res.length = (resolveSubjects sel).length := by
    rw [hres, List.length_map, ← hllen, hzlen]
  refine ⟨hreslen, ?_⟩
  intro k hk
  have hks : k < (resolveSubjects sel).length := by rw [← hreslen]; exact hk
  have hkz : k < ((resolveSubjects sel).zip paths).length := by rw [hzlen]; exact hks
  have hkl : k < loaded.length := by rw [← hllen]; exact hkz
  have hkp : k < paths.length := by rw [hplen]; exact hks
  have hR := (List.forall₂_iff_get.mp h2).2 k hkz hkl
  have hpair : ((resolveSubjects sel).zip paths).get ⟨k, hkz⟩ =
      ((resolveSubjects sel).get ⟨k, hks⟩, paths.get ⟨k, hkp⟩) := by
    simp [List.get_eq_getElem, List.getElem_zip]
  rw [hpair] at hR
  obtain ⟨raw1, rI, hraw, hhead, hrImem, hrIrec, hevs, hwrap⟩ :=
    load_raw_inv ctx info _ _ _ load_eeg_only
      (loaded.get ⟨k, hkl⟩).1 (loaded.get ⟨k, hkl⟩).2 hR
  have hget : res.get ⟨k, hk⟩ = (loaded.get ⟨k, hkl⟩).2 := by
    simp only [List.get_eq_getElem, hres, List.getElem_map]
  refine ⟨{ raw := preStage ctx raw1
            desc :=
              { subject := (resolveSubjects sel).get ⟨k, hks⟩
                record := rI.record
                split := if rI.record.startsWith "tr" then "training"
                  else if rI.record.startsWith "te" then "test" else "unknown"
                age := rI.age
                sex := rI.sex } },
    (paths.get ⟨k, hkp⟩).1, (paths.get ⟨k, hkp⟩).2.2, raw1, ?_, ?_, hraw, rfl, ?_⟩
  · rw [hget, hwrap]
  · show (resolveSubjects sel).get ⟨k, hks⟩ = (resolveSubjects sel).getD k 0
    rw [List.getD_eq_getElem _ 0 hks, List.get_eq_getElem]
  · exact ⟨rI, hrImem, rfl, rfl, rfl, rfl⟩

/-- Claim C6: for every subject list and every `n_jobs` greater than 1,
building the dataset in parallel worker processes yields the same sequence
of per-subject base datasets (indeed the same whole result) as the
sequential `n_jobs = 1` path: `joblib.Parallel` is an order-preserving map
over the same per-record loads. -/
theorem pc18_parallel_eq_sequential {Raw W : Type} (ctx : LoadCtx Raw W)
    (records : List SleepRecord) (f : String → String → String) (info : List InfoEntry)
    (sel : SubjSpec) (load_eeg_only : Bool) (n_jobs : Nat) (hn : 1 < n_jobs) :
    PC18.build ctx records f info sel load_eeg_only n_jobs =
      PC18.build ctx records f info sel load_eeg_only 1 := by
  unfold PC18.build
  have hne : ¬ n_jobs = 1 := by omega
  simp [hne, joblibParallel]

/-- Claim C7: for every PC18 construction, the processing steps occur in
the fixed linear order: resolve the local data path, then fetch the remote
files, then per record parse the signal record, convert the annotations,
apply the optional preprocessors, apply the optional windower, and finally
collect the results; no step runs before its predecessor. -/
theorem pc18_linear_order {Raw W : Type} (ctx : LoadCtx Raw W)
    (records : List SleepRecord) (f : String → String → String) (info : List InfoEntry)
    (sel : SubjSpec) (load_eeg_only : Bool) (n_jobs : Nat) (tr : List Ev)
    (res : List (LoadResult Raw W))
    (hbuild : PC18.build ctx records f info sel load_eeg_only n_jobs = some (tr, res)) :
    C7Prop ctx records f sel tr res := by
  obtain ⟨calls, paths, loaded, hf, hl, htr, hres⟩ :=
    build_inv ctx records f info sel load_eeg_only n_jobs tr res hbuild
  refine ⟨calls, paths, hf, ?_⟩
  have h2 := seqMapOpt_forall2 _ _ _ hl
  have h3 := load_trace_flatMap ctx info load_eeg_only _ _ h2
  rw [htr, h3, hres, List.length_map]

theorem buildEx_eq :
    PC18.build ctxEx recsEx fetchEx infoEx (SubjSpec.given [0, 1]) true 1 =
      some (trEx, resEx) := by
  with_unfolding_all decide

theorem pc18_one_per_subject_witness :
    PC18.build ctxEx recsEx fetchEx infoEx (SubjSpec.given [0, 1]) true 1 =
      some (trEx, resEx) ∧
    (∀ s ∈ resolveSubjects (SubjSpec.given [0, 1]),
      (matchIdxs (psgRecords recsEx) s).length = 1) ∧
    C5Prop ctxEx infoEx (SubjSpec.given [0, 1]) true resEx :=
  ⟨buildEx_eq, by with_unfolding_all decide,
    pc18_one_per_subject ctxEx recsEx fetchEx infoEx (SubjSpec.given [0, 1]) true 1
      trEx resEx buildEx_eq (by with_unfolding_all decide)⟩

theorem pc18_parallel_eq_sequential_witness :
    1 < 2 ∧
    PC18.build ctxEx recsEx fetchEx infoEx (SubjSpec.given [0, 1]) true 2 =
      PC18.build ctxEx recsEx fetchEx infoEx (SubjSpec.given [0, 1]) true 1 :=
  ⟨by decide,
    pc18_parallel_eq_sequential ctxEx recsEx fetchEx infoEx (SubjSpec.given [0, 1])
      true 2 (by decide)⟩

theorem pc18_linear_order_witness :
    PC18.build ctxEx recsEx fetchEx infoEx (SubjSpec.given [0, 1]) true 1 =
      some (trEx, resEx) ∧
    C7Prop ctxEx recsEx fetchEx (SubjSpec.given [0, 1]) trEx resEx :=
  ⟨buildEx_eq,
    pc18_linear_order ctxEx recsEx fetchEx infoEx (SubjSpec.given [0, 1]) true 1
      trEx resEx buildEx_eq⟩

theorem fetch_arousal_iff_training_witness :
    (heaRecords recsEx).length = (psgRecords recsEx).length ∧
    (∀ s ∈ [1, 0], ∀ i ∈ matchIdxs (psgRecords recsEx) s,
      ((psgRecords recsEx).getD i default).split = "training" →
        matchIdxs (arousalRecords recsEx) s ≠ []) ∧
    C8Prop recsEx fetchEx [1, 0] :=
  ⟨by with_unfolding_all decide, by with_unfolding_all decide,
    fetch_arousal_iff_training recsEx fetchEx [1, 0]
      (by with_unfolding_all decide) (by with_unfolding_all decide)⟩
